import Mathlib

/-!
Verification of the dynamic quantized conv-BN fusion layer of the cobits
repository (`mmrazor/models/architectures/dynamic_qops/dynamic_qconv_fused.py`)
and of auxiliary components (backend-config fusion helpers, FLOPs counters,
subnet-export validation loop).

Real tensors are modelled as total functions `ℕ → ℕ → ℕ → ℕ → ℝ`
(batch, channel, row, column); per-channel vectors as `ℕ → ℝ`.
`F.conv2d` is translated as an explicit finite sum with zero padding,
stride, dilation and groups, matching the framework semantics the code
relies on.
-/

abbrev Tensor4 := ℕ → ℕ → ℕ → ℕ → ℝ

abbrev WeightT := ℕ → ℕ → ℕ → ℕ → ℝ

abbrev Vec := ℕ → ℝ

/-- Geometry arguments of a 2d convolution: stride, padding and dilation. -/
structure ConvGeom where
  strideH : ℕ
  strideW : ℕ
  padH : ℕ
  padW : ℕ
  dilH : ℕ
  dilW : ℕ

/-- Zero-padded lookup of an input tensor defined on `[0,H) × [0,W)`. -/
def padded (H W : ℕ) (input : Tensor4) (n c : ℕ) (y x : ℤ) : ℝ :=
  if 0 ≤ y ∧ y < (H : ℤ) ∧ 0 ≤ x ∧ x < (W : ℤ) then input n c y.toNat x.toNat else 0

/-- `F.conv2d`: grouped 2d cross-correlation with bias, stride, zero padding
and dilation.  `cinPerGroup` is `weight.size(1)`, `coutPerGroup` the number of
output channels per group. -/
def conv2d (H W cinPerGroup coutPerGroup kH kW : ℕ) (g : ConvGeom)
    (input : Tensor4) (weight : WeightT) (bias : Vec) : Tensor4 :=
  fun n oc oy ox =>
    bias oc +
      ∑ ic ∈ Finset.range cinPerGroup, ∑ ky ∈ Finset.range kH,
        ∑ kx ∈ Finset.range kW,
          weight oc ic ky kx *
            padded H W input n (oc / coutPerGroup * cinPerGroup + ic)
              ((oy * g.strideH + ky * g.dilH : ℤ) - (g.padH : ℤ))
              ((ox * g.strideW + kx * g.dilW : ℤ) - (g.padW : ℤ))

/-- Spatial output size of a convolution along one axis
(`(len + 2*pad - dil*(k-1) - 1) / stride + 1`). -/
def conv_out_size (len pad dil k stride : ℕ) : ℕ :=
  (len + 2 * pad - dil * (k - 1) - 1) / stride + 1

theorem conv2d_scale_out_channels (H W cig cog kH kW : ℕ) (g : ConvGeom)
    (input : Tensor4) (w : WeightT) (s : Vec) :
    conv2d H W cig cog kH kW g input (fun oc ic ky kx => w oc ic ky kx * s oc)
        (fun _ => 0) =
      fun n oc oy ox => conv2d H W cig cog kH kW g input w (fun _ => 0) n oc oy ox * s oc := by
  funext n oc oy ox
  simp only [conv2d, zero_add, Finset.sum_mul]
  refine Finset.sum_congr rfl fun ic _ => Finset.sum_congr rfl fun ky _ =>
    Finset.sum_congr rfl fun kx _ => ?_
  ring

theorem conv2d_bias_split (H W cig cog kH kW : ℕ) (g : ConvGeom)
    (input : Tensor4) (w : WeightT) (b : Vec) :
    conv2d H W cig cog kH kW g input w b =
      fun n oc oy ox => conv2d H W cig cog kH kW g input w (fun _ => 0) n oc oy ox + b oc := by
  funext n oc oy ox
  simp [conv2d, add_comm]

noncomputable section

/-- Mean over batch and spatial dimensions (`dims = [0, 2, 3]`),
per channel. -/
def tensor_mean (N H W : ℕ) (x : Tensor4) (c : ℕ) : ℝ :=
  (∑ n ∈ Finset.range N, ∑ y ∈ Finset.range H, ∑ xx ∈ Finset.range W, x n c y xx) /
    (N * H * W)

/-- Biased variance over batch and spatial dimensions, per channel. -/
def tensor_var (N H W : ℕ) (x : Tensor4) (c : ℕ) : ℝ :=
  (∑ n ∈ Finset.range N, ∑ y ∈ Finset.range H, ∑ xx ∈ Finset.range W,
      (x n c y xx - tensor_mean N H W x c) ^ 2) / (N * H * W)

theorem tensor_var_nonneg (N H W : ℕ) (x : Tensor4) (c : ℕ) :
    0 ≤ tensor_var N H W x c := by
  unfold tensor_var
  apply div_nonneg
  · refine Finset.sum_nonneg fun n _ => Finset.sum_nonneg fun y _ =>
      Finset.sum_nonneg fun xx _ => ?_
    positivity
  · positivity

end

/-- The `k`-th index selected by a boolean mask over `[0, size)`
(boolean-mask indexing `v[mask]`). -/
def mask_index (mask : ℕ → Bool) (size : ℕ) (k : ℕ) : ℕ :=
  ((List.range size).filter (fun i => mask i)).getD k 0

/-- Boolean-mask selection (compaction) of a per-channel vector. -/
def mask_select (mask : ℕ → Bool) (size : ℕ) (v : Vec) : Vec :=
  fun k => v (mask_index mask size k)

/-- Number of active entries of a boolean mask over `[0, size)`
(`mask.sum().item()`). -/
def mask_count (mask : ℕ → Bool) (size : ℕ) : ℕ :=
  ((List.range size).filter (fun i => mask i)).length

/-- Optional boolean-mask selection: `none` (no mutable mask registered)
leaves the vector unchanged, matching indexing by the all-ones mask. -/
def mask_selectO (mask : Option (ℕ → Bool)) (size : ℕ) (v : Vec) : Vec :=
  match mask with
  | none => v
  | some msk => mask_select msk size v

/-- State and parameters of a (dynamic) 2d batch-norm module.  `mask` is the
current mask of the mutable `num_features` attribute, `none` when no mutable
channel mask is registered. -/
structure BNModel where
  num_features : ℕ
  eps : ℝ
  momentum : ℝ
  weight : Vec
  bias : Vec
  running_mean : Vec
  running_var : Vec
  training : Bool
  mask : Option (ℕ → Bool)

/-- Modelled from the spec: a `DynamicBatchNorm2d` slices its
weight/bias/normalization tensors down to the actively-sampled
sub-architecture, i.e. compacts them by the current `num_features` mask.
The slicing method itself lives in `mmrazor/models/architectures/dynamic_ops`,
which is outside the provided sources. -/
def BNModel.active_weight (bn : BNModel) : Vec :=
  mask_selectO bn.mask bn.num_features bn.weight

/-- Modelled from the spec: sliced affine bias of a dynamic batch norm. -/
def BNModel.active_bias (bn : BNModel) : Vec :=
  mask_selectO bn.mask bn.num_features bn.bias

/-- Modelled from the spec: sliced running mean of a dynamic batch norm. -/
def BNModel.active_running_mean (bn : BNModel) : Vec :=
  mask_selectO bn.mask bn.num_features bn.running_mean

/-- Modelled from the spec: sliced running variance of a dynamic batch norm. -/
def BNModel.active_running_var (bn : BNModel) : Vec :=
  mask_selectO bn.mask bn.num_features bn.running_var

noncomputable section

/-- Output value of a batch-norm forward call on a `(N, C, H, W)` tensor:
batch statistics in training mode, running statistics in eval mode. -/
def bn_forward_value (bn : BNModel) (N H W : ℕ) (inp : Tensor4) : Tensor4 :=
  if bn.training then
    fun n c y x =>
      bn.active_weight c * (inp n c y x - tensor_mean N H W inp c) /
          Real.sqrt (tensor_var N H W inp c + bn.eps) + bn.active_bias c
  else
    fun n c y x =>
      bn.active_weight c * (inp n c y x - bn.active_running_mean c) /
          Real.sqrt (bn.active_running_var c + bn.eps) + bn.active_bias c

/-- State effect of a batch-norm forward call: in training mode the running
statistics are updated once with the batch statistics of the input (the
running variance with the unbiased batch variance); in eval mode the state is
unchanged. -/
def bn_forward_state (bn : BNModel) (N H W : ℕ) (inp : Tensor4) : BNModel :=
  if bn.training then
    { bn with
      running_mean := fun c =>
        (1 - bn.momentum) * bn.running_mean c + bn.momentum * tensor_mean N H W inp c
      running_var := fun c =>
        (1 - bn.momentum) * bn.running_var c +
          bn.momentum * (tensor_var N H W inp c * (N * H * W) / (N * H * W - 1)) }
  else bn

end

/-- Model of a `DynamicQConvBn2d` module: conv parameters, fused dynamic
batch norm, weight fake-quantizer, and the current masks of the mutable
`out_channels` / `in_channels` attributes (`none` when not registered). -/
structure DynamicQConvBn2d where
  in_channels : ℕ
  out_channels : ℕ
  kH : ℕ
  kW : ℕ
  geom : ConvGeom
  groups : ℕ
  weight : WeightT
  bias : Option Vec
  bn : BNModel
  weight_fake_quant : WeightT → WeightT
  out_mask : Option (ℕ → Bool)
  in_mask : Option (ℕ → Bool)

/-- Modelled from the spec: `_get_dynamic_params_by_mutable_channels` (defined
in `mmrazor/models/architectures/dynamic_ops`, outside the provided sources)
slices the out-channel (dim 0) and in-channel (dim 1) dimensions of the weight
down to the actively-sampled sub-architecture, compacting by the current
mutable-channel masks. -/
def DynamicQConvBn2d.sliced_weight (m : DynamicQConvBn2d) (w : WeightT) : WeightT :=
  fun oc ic ky kx =>
    w (match m.out_mask with
       | none => oc
       | some msk => mask_index msk m.out_channels oc)
      (match m.in_mask with
       | none => ic
       | some msk => mask_index msk m.in_channels ic)
      ky kx

/-- Modelled from the spec: the bias is sliced by the out-channel mask. -/
def DynamicQConvBn2d.sliced_bias (m : DynamicQConvBn2d) (b : Option Vec) : Option Vec :=
  b.map (mask_selectO m.out_mask m.out_channels)

/-- Number of active output channels (`weight.size(0)` after slicing). -/
def DynamicQConvBn2d.active_out_channels (m : DynamicQConvBn2d) : ℕ :=
  match m.out_mask with
  | none => m.out_channels
  | some msk => mask_count msk m.out_channels

/-- Number of active input channels (`weight.size(1) * groups` after slicing). -/
def DynamicQConvBn2d.active_in_channels (m : DynamicQConvBn2d) : ℕ :=
  match m.in_mask with
  | none => m.in_channels
  | some msk => mask_count msk m.in_channels

/-- `get_dynamic_params`: sliced weight, sliced bias, padding, and the current
out-channel mask (`none` models the all-ones mask built when no mutable
`out_channels` attribute is registered, whose boolean indexing is the
identity). -/
def DynamicQConvBn2d.get_dynamic_params (m : DynamicQConvBn2d) (orig_weight : WeightT)
    (orig_bias : Option Vec) : WeightT × Option Vec × (ℕ × ℕ) × Option (ℕ → Bool) :=
  (m.sliced_weight orig_weight, m.sliced_bias orig_bias,
    (m.geom.padH, m.geom.padW), m.out_mask)

/-- `groups` recomputed at the top of both forward methods: for a
full-depthwise conv (`groups == in_channels == out_channels`) it becomes
`input.size(1)`. -/
def DynamicQConvBn2d.eff_groups (m : DynamicQConvBn2d) (inputC : ℕ) : ℕ :=
  if m.groups = m.in_channels ∧ m.in_channels = m.out_channels then inputC
  else m.groups

noncomputable section

/-- `running_std = torch.sqrt(bn.running_var + bn.eps)`. -/
def bn_running_std (bn : BNModel) : Vec :=
  fun c => Real.sqrt (bn.running_var c + bn.eps)

/-- `scale_factor = bn.weight / running_std`. -/
def bn_scale_factor (bn : BNModel) : Vec :=
  fun c => bn.weight c / bn_running_std bn c

/-- Result of a forward method: output tensor, batch-norm state after the
call, and the number of `self.conv_func` invocations performed. -/
structure ForwardResult where
  out : Tensor4
  bn : BNModel
  conv_calls : ℕ

/-- `DynamicQConvBn2d._forward_approximate`, on an input of shape
`(N, inputC, inH, inW)`.  Scales the weight by `bn.weight / running_std`,
fake-quantizes and slices it, convolves with a zero bias, divides by the
masked scale factor, adds the original bias and feeds the result through
`self.bn`. -/
def DynamicQConvBn2d.forward_approximate (m : DynamicQConvBn2d)
    (N inputC inH inW : ℕ) (input : Tensor4) : ForwardResult :=
  let groups := m.eff_groups inputC
  let scale_factor0 := bn_scale_factor m.bn
  let scaled_weight0 : WeightT := fun oc ic ky kx =>
    m.weight oc ic ky kx * scale_factor0 oc
  let scaled_weight := m.sliced_weight (m.weight_fake_quant scaled_weight0)
  let bias := m.sliced_bias m.bias
  let scale_factor := mask_selectO m.out_mask m.out_channels scale_factor0
  let cig := m.active_in_channels / groups
  let cog := m.active_out_channels / groups
  let conv := conv2d inH inW cig cog m.kH m.kW m.geom input scaled_weight (fun _ => 0)
  let conv_orig0 : Tensor4 := fun n oc oy ox => conv n oc oy ox / scale_factor oc
  let conv_orig : Tensor4 :=
    match bias with
    | none => conv_orig0
    | some b => fun n oc oy ox => conv_orig0 n oc oy ox + b oc
  let oH := conv_out_size inH m.geom.padH m.geom.dilH m.kH m.geom.strideH
  let oW := conv_out_size inW m.geom.padW m.geom.dilW m.kW m.geom.strideW
  { out := bn_forward_value m.bn N oH oW conv_orig
    bn := bn_forward_state m.bn N oH oW conv_orig
    conv_calls := 1 }

/-- The first (unscaled) convolution of `_forward_slow`: the fake-quantized,
sliced weight with a zero bias. -/
def DynamicQConvBn2d.slow_conv_out (m : DynamicQConvBn2d)
    (inputC inH inW : ℕ) (input : Tensor4) : Tensor4 :=
  conv2d inH inW (m.active_in_channels / m.eff_groups inputC)
    (m.active_out_channels / m.eff_groups inputC) m.kH m.kW m.geom input
    (m.sliced_weight (m.weight_fake_quant m.weight)) (fun _ => 0)

/-- `conv_out_bias`: the unscaled convolution output of `_forward_slow` plus
the original (sliced) conv bias, the tensor fed through `self.bn` under
no-grad in training mode. -/
def DynamicQConvBn2d.slow_conv_out_bias (m : DynamicQConvBn2d)
    (inputC inH inW : ℕ) (input : Tensor4) : Tensor4 :=
  match m.sliced_bias m.bias with
  | none => m.slow_conv_out inputC inH inW input
  | some b => fun n oc oy ox => m.slow_conv_out inputC inH inW input n oc oy ox + b oc

/-- `DynamicQConvBn2d._forward_slow`, on an input of shape
`(N, inputC, inH, inW)`: the two-pass method of arXiv:1806.08342.  In
training mode a first convolution (with the fake-quantized, unscaled weight)
feeds the batch-norm statistics update; the fused pass convolves with the
weight scaled by `bn.weight / running_std` (reading the just-updated running
statistics), then rescales with batch statistics in training mode or applies
the running-statistics fused bias in eval mode. -/
def DynamicQConvBn2d.forward_slow (m : DynamicQConvBn2d)
    (N inputC inH inW : ℕ) (input : Tensor4) : ForwardResult :=
  let groups := m.eff_groups inputC
  let weight := m.sliced_weight (m.weight_fake_quant m.weight)
  let bias := m.sliced_bias m.bias
  let cig := m.active_in_channels / groups
  let cog := m.active_out_channels / groups
  let oH := conv_out_size inH m.geom.padH m.geom.dilH m.kH m.geom.strideH
  let oW := conv_out_size inW m.geom.padW m.geom.dilW m.kW m.geom.strideW
  -- training branch: conv_out and the single bn statistics update
  let conv_out := m.slow_conv_out inputC inH inW input
  let conv_out_bias := m.slow_conv_out_bias inputC inH inW input
  let bn1 := if m.bn.training then bn_forward_state m.bn N oH oW conv_out_bias else m.bn
  let calls1 := if m.bn.training then 1 else 0
  -- fused conv + bn without bias, using (possibly just updated) running stats
  let running_std := bn_running_std bn1
  let scale_factor := mask_selectO m.out_mask m.out_channels
    (fun c => bn1.weight c / running_std c)
  let scaled_weight : WeightT := fun oc ic ky kx => weight oc ic ky kx * scale_factor oc
  let conv_bn0 := conv2d inH inW cig cog m.kH m.kW m.geom input scaled_weight (fun _ => 0)
  let calls2 := calls1 + 1
  let batch_mean := tensor_mean N oH oW conv_out
  let batch_var := tensor_var N oH oW conv_out
  let batch_std : Vec := fun c => Real.sqrt (batch_var c + m.bn.eps)
  let unscale_factor : Vec := fun c =>
    mask_selectO m.out_mask m.out_channels running_std c / batch_std c
  let conv_bn1 : Tensor4 :=
    if m.bn.training then fun n oc oy ox => conv_bn0 n oc oy ox * unscale_factor oc
    else conv_bn0
  let fused_mean : Vec :=
    if m.bn.training then batch_mean
    else fun c => mask_selectO m.out_mask m.out_channels bn1.running_mean c -
      (match bias with | none => 0 | some b => b c)
  let fused_std : Vec :=
    if m.bn.training then batch_std
    else mask_selectO m.out_mask m.out_channels running_std
  let fused_bias : Vec := fun c =>
    mask_selectO m.out_mask m.out_channels bn1.bias c -
      mask_selectO m.out_mask m.out_channels bn1.weight c * fused_mean c / fused_std c
  let conv_bn2 : Tensor4 := fun n oc oy ox => conv_bn1 n oc oy ox + fused_bias oc
  -- `conv_bn += (bias - bias)`: keeps the conv bias in the autograd graph
  let conv_bn3 : Tensor4 :=
    match bias with
    | none => conv_bn2
    | some b => fun n oc oy ox => conv_bn2 n oc oy ox + (b oc - b oc)
  { out := conv_bn3
    bn := bn1
    conv_calls := calls2 }

end

theorem conv2d_scale_cancel (H W cig cog kH kW : ℕ) (g : ConvGeom) (input : Tensor4)
    (w : WeightT) (s : Vec) (b : Vec) (hs : ∀ c, s c ≠ 0) :
    (fun n oc oy ox =>
        conv2d H W cig cog kH kW g input
            (fun oc ic ky kx => w oc ic ky kx * s oc) (fun _ => 0) n oc oy ox /
          s oc + b oc) =
      conv2d H W cig cog kH kW g input w b := by
  funext n oc oy ox
  have h1 : conv2d H W cig cog kH kW g input
      (fun oc ic ky kx => w oc ic ky kx * s oc) (fun _ => 0) n oc oy ox =
      conv2d H W cig cog kH kW g input w (fun _ => 0) n oc oy ox * s oc := by
    rw [conv2d_scale_out_channels]
  rw [h1, mul_div_cancel_right₀ _ (hs oc)]
  simp [conv2d, add_comm]

theorem bn_scale_factor_ne_zero (bn : BNModel) (c : ℕ)
    (hw : bn.weight c ≠ 0) (hvar : 0 ≤ bn.running_var c) (heps : 0 < bn.eps) :
    bn_scale_factor bn c ≠ 0 := by
  have hstd : 0 < Real.sqrt (bn.running_var c + bn.eps) :=
    Real.sqrt_pos.mpr (by linarith)
  exact div_ne_zero hw (ne_of_gt hstd)

/-- C1: with an identity weight fake-quantizer, no mutable channel masks,
`bn.weight` elementwise nonzero and `bn.running_var` elementwise nonnegative,
`_forward_approximate(input)` equals `self.bn(conv2d(input, self.weight,
self.bias, self.stride, self.padding, self.dilation, groups))`: the
approximate single-pass fusion is exactly convolution followed by batch
normalization. -/
theorem forward_approximate_is_conv_then_bn (m : DynamicQConvBn2d)
    (N inputC inH inW : ℕ) (input : Tensor4)
    (hfq : m.weight_fake_quant = id)
    (hout : m.out_mask = none) (hin : m.in_mask = none) (_hbn : m.bn.mask = none)
    (hw : ∀ c, m.bn.weight c ≠ 0)
    (hvar : ∀ c, 0 ≤ m.bn.running_var c)
    (heps : 0 < m.bn.eps) :
    (m.forward_approximate N inputC inH inW input).out =
      bn_forward_value m.bn N
        (conv_out_size inH m.geom.padH m.geom.dilH m.kH m.geom.strideH)
        (conv_out_size inW m.geom.padW m.geom.dilW m.kW m.geom.strideW)
        (conv2d inH inW (m.in_channels / m.eff_groups inputC)
          (m.out_channels / m.eff_groups inputC) m.kH m.kW m.geom input
          m.weight (fun c => (m.bias.getD (fun _ => 0)) c)) := by
  have hsf : ∀ c, bn_scale_factor m.bn c ≠ 0 := fun c =>
    bn_scale_factor_ne_zero m.bn c (hw c) (hvar c) heps
  have hslice : m.sliced_weight (m.weight_fake_quant
      (fun oc ic ky kx => m.weight oc ic ky kx * bn_scale_factor m.bn oc)) =
      fun oc ic ky kx => m.weight oc ic ky kx * bn_scale_factor m.bn oc := by
    funext oc ic ky kx
    simp [DynamicQConvBn2d.sliced_weight, hout, hin, hfq]
  cases hb : m.bias with
  | none =>
      simp only [DynamicQConvBn2d.forward_approximate, hb, hslice,
        DynamicQConvBn2d.sliced_bias, Option.map_none, hout, hin, mask_selectO,
        DynamicQConvBn2d.active_in_channels, DynamicQConvBn2d.active_out_channels,
        Option.getD_none]
      refine congrArg (bn_forward_value m.bn N _ _) ?_
      rw [conv2d_scale_out_channels]
      funext n oc oy ox
      exact mul_div_cancel_right₀ _ (hsf oc)
  | some b =>
      simp only [DynamicQConvBn2d.forward_approximate, hb, hslice,
        DynamicQConvBn2d.sliced_bias, Option.map_some, hout, hin, mask_selectO,
        DynamicQConvBn2d.active_in_channels, DynamicQConvBn2d.active_out_channels,
        Option.getD_some]
      refine congrArg (bn_forward_value m.bn N _ _) ?_
      exact conv2d_scale_cancel inH inW (m.in_channels / m.eff_groups inputC)
        (m.out_channels / m.eff_groups inputC) m.kH m.kW m.geom input m.weight
        (bn_scale_factor m.bn) (fun c => b c) hsf

/-- C2: in inference mode (`bn.training = false`), with an identity weight
fake-quantizer, no mutable channel masks, `bn.weight` elementwise nonzero and
`bn.running_var` elementwise nonnegative, the numerically exact two-pass
method `_forward_slow` and the approximate single-pass method
`_forward_approximate` compute the same output. -/
theorem forward_slow_eq_forward_approximate_eval (m : DynamicQConvBn2d)
    (N inputC inH inW : ℕ) (input : Tensor4)
    (htrain : m.bn.training = false)
    (hfq : m.weight_fake_quant = id)
    (hout : m.out_mask = none) (hin : m.in_mask = none) (hbn : m.bn.mask = none)
    (hw : ∀ c, m.bn.weight c ≠ 0)
    (hvar : ∀ c, 0 ≤ m.bn.running_var c)
    (heps : 0 < m.bn.eps) :
    (m.forward_slow N inputC inH inW input).out =
      (m.forward_approximate N inputC inH inW input).out := by
  have hstd : ∀ c, Real.sqrt (m.bn.running_var c + m.bn.eps) ≠ 0 := fun c =>
    ne_of_gt (Real.sqrt_pos.mpr (by have := hvar c; linarith))
  have hslicefq : m.sliced_weight (m.weight_fake_quant m.weight) = m.weight := by
    funext oc ic ky kx
    simp [DynamicQConvBn2d.sliced_weight, hout, hin, hfq]
  have hslice : m.sliced_weight (m.weight_fake_quant
      (fun oc ic ky kx => m.weight oc ic ky kx *
        (m.bn.weight oc / Real.sqrt (m.bn.running_var oc + m.bn.eps)))) =
      fun oc ic ky kx => m.weight oc ic ky kx *
        (m.bn.weight oc / Real.sqrt (m.bn.running_var oc + m.bn.eps)) := by
    funext oc ic ky kx
    simp [DynamicQConvBn2d.sliced_weight, hout, hin, hfq]
  cases hb : m.bias with
  | none =>
      simp only [DynamicQConvBn2d.forward_slow, DynamicQConvBn2d.forward_approximate,
        hb, DynamicQConvBn2d.sliced_bias, Option.map_none,
        hout, hin, mask_selectO, htrain, Bool.false_eq_true, if_false,
        bn_running_std, bn_scale_factor, hslicefq, hslice,
        DynamicQConvBn2d.active_in_channels, DynamicQConvBn2d.active_out_channels]
      rw [conv2d_scale_out_channels]
      simp only [bn_forward_value, htrain, Bool.false_eq_true, if_false,
        BNModel.active_weight, BNModel.active_bias, BNModel.active_running_mean,
        BNModel.active_running_var, hbn, mask_selectO]
      funext n oc oy ox
      have h1 := hw oc
      have h2 := hstd oc
      field_simp
      ring
  | some b =>
      simp only [DynamicQConvBn2d.forward_slow, DynamicQConvBn2d.forward_approximate,
        hb, DynamicQConvBn2d.sliced_bias, Option.map_some,
        hout, hin, mask_selectO, htrain, Bool.false_eq_true, if_false,
        bn_running_std, bn_scale_factor, hslicefq, hslice,
        DynamicQConvBn2d.active_in_channels, DynamicQConvBn2d.active_out_channels]
      rw [conv2d_scale_out_channels]
      simp only [bn_forward_value, htrain, Bool.false_eq_true, if_false,
        BNModel.active_weight, BNModel.active_bias, BNModel.active_running_mean,
        BNModel.active_running_var, hbn, mask_selectO]
      funext n oc oy ox
      have h1 := hw oc
      have h2 := hstd oc
      field_simp
      ring

/-- A concrete eval-mode module used to exhibit the single-conv behaviour of
`_forward_slow` in inference mode. -/
def evalModule : DynamicQConvBn2d where
  in_channels := 1
  out_channels := 1
  kH := 1
  kW := 1
  geom := ⟨1, 1, 0, 0, 1, 1⟩
  groups := 1
  weight := fun _ _ _ _ => 1
  bias := none
  bn := { num_features := 1, eps := 1, momentum := 1, weight := fun _ => 1,
          bias := fun _ => 0, running_mean := fun _ => 0,
          running_var := fun _ => 0, training := false, mask := none }
  weight_fake_quant := id
  out_mask := none
  in_mask := none

/-- C3 (counterexample): in inference mode (`bn.training = false`)
`_forward_slow` performs exactly one convolution forward pass, not two: the
first convolution is guarded by `if self.bn.training`. -/
theorem forward_slow_single_conv_in_eval :
    (evalModule.forward_slow 1 1 1 1 (fun _ _ _ _ => 0)).conv_calls ≠ 2 := by
  have h : (evalModule.forward_slow 1 1 1 1 (fun _ _ _ _ => 0)).conv_calls = 1 := rfl
  simp [h]

/-- C3 (amended): `_forward_approximate` performs exactly one convolution
forward pass per invocation; `_forward_slow` performs exactly two convolution
forward passes per invocation when `bn.training` is true and exactly one when
it is false. -/
theorem conv_call_counts (m : DynamicQConvBn2d) (N inputC inH inW : ℕ)
    (input : Tensor4) :
    (m.forward_approximate N inputC inH inW input).conv_calls = 1 ∧
      (m.forward_slow N inputC inH inW input).conv_calls =
        (if m.bn.training then 2 else 1) := by
  refine ⟨rfl, ?_⟩
  cases htr : m.bn.training <;>
    simp [DynamicQConvBn2d.forward_slow, htr]

theorem mask_index_active (msk : ℕ → Bool) (size k : ℕ)
    (hk : k < mask_count msk size) :
    msk (mask_index msk size k) = true := by
  unfold mask_count at hk
  unfold mask_index
  rw [List.getD_eq_getElem _ _ hk]
  have hmem := List.getElem_mem
    (l := (List.range size).filter (fun i => msk i)) (n := k) hk
  exact (List.mem_filter.mp hmem).2

/-- A channel index is active for an optional mask when either no mask is
registered (the all-ones mask) or the mask selects it. -/
def mask_active (mask : Option (ℕ → Bool)) (o : ℕ) : Prop :=
  ∀ msk, mask = some msk → msk o = true

/-- C4: when every entry of `bn.weight` selected by the active output-channel
mask is nonzero and `bn.running_var` is elementwise nonnegative, every entry
of the masked `scale_factor` vector that `_forward_approximate` divides the
conv output by is nonzero; by contrast, the divisors of `_forward_slow` are
the running standard deviation `sqrt(running_var + eps)` and the batch
standard deviation `sqrt(batch_var + eps)`, both strictly positive with no
hypothesis on `bn.weight`, so its output is defined even when some entry of
`bn.weight` is zero. -/
theorem approximate_divisor_ne_zero_slow_divisors_pos (m : DynamicQConvBn2d)
    (hvar : ∀ c, 0 ≤ m.bn.running_var c)
    (heps : 0 < m.bn.eps)
    (hsel : ∀ o, mask_active m.out_mask o → m.bn.weight o ≠ 0) :
    (∀ k, k < m.active_out_channels →
        mask_selectO m.out_mask m.out_channels (bn_scale_factor m.bn) k ≠ 0) ∧
      (∀ c, 0 < bn_running_std m.bn c) ∧
      (∀ (N H W : ℕ) (t : Tensor4) (c : ℕ),
        0 < Real.sqrt (tensor_var N H W t c + m.bn.eps)) := by
  refine ⟨?_, ?_, ?_⟩
  · intro k hk
    cases hmask : m.out_mask with
    | none =>
        simp only [mask_selectO]
        exact bn_scale_factor_ne_zero m.bn k
          (hsel k (by intro msk hmsk; rw [hmask] at hmsk; exact absurd hmsk (by simp)))
          (hvar k) heps
    | some msk =>
        simp only [mask_selectO, mask_select]
        have hcount : k < mask_count msk m.out_channels := by
          have := hk
          rw [DynamicQConvBn2d.active_out_channels, hmask] at this
          exact this
        have hact : msk (mask_index msk m.out_channels k) = true :=
          mask_index_active msk m.out_channels k hcount
        refine bn_scale_factor_ne_zero m.bn _ ?_ (hvar _) heps
        refine hsel _ ?_
        intro msk2 hmsk2
        rw [hmask] at hmsk2
        cases hmsk2
        exact hact
  · intro c
    exact Real.sqrt_pos.mpr (by have := hvar c; linarith)
  · intro N H W t c
    exact Real.sqrt_pos.mpr
      (by have := tensor_var_nonneg N H W t c; linarith)

/-- C6: a call of `_forward_slow` with `bn.training` true updates the
batch-norm running statistics exactly once, by feeding the unscaled
convolution output plus the original conv bias through `self.bn` before the
fused computation; with `bn.training` false the batch-norm state (in
particular `running_mean` and `running_var`) is left unchanged. -/
theorem forward_slow_bn_state_update (m : DynamicQConvBn2d)
    (N inputC inH inW : ℕ) (input : Tensor4) :
    (m.bn.training = true →
        (m.forward_slow N inputC inH inW input).bn =
          bn_forward_state m.bn N
            (conv_out_size inH m.geom.padH m.geom.dilH m.kH m.geom.strideH)
            (conv_out_size inW m.geom.padW m.geom.dilW m.kW m.geom.strideW)
            (m.slow_conv_out_bias inputC inH inW input)) ∧
      (m.bn.training = false →
        (m.forward_slow N inputC inH inW input).bn = m.bn) := by
  constructor
  · intro htr
    simp [DynamicQConvBn2d.forward_slow, htr]
  · intro htr
    simp [DynamicQConvBn2d.forward_slow, htr]

theorem forward_approximate_is_conv_then_bn_witness :
    (evalModule.forward_approximate 1 1 1 1 (fun _ _ _ _ => 1)).out =
      bn_forward_value evalModule.bn 1
        (conv_out_size 1 evalModule.geom.padH evalModule.geom.dilH
          evalModule.kH evalModule.geom.strideH)
        (conv_out_size 1 evalModule.geom.padW evalModule.geom.dilW
          evalModule.kW evalModule.geom.strideW)
        (conv2d 1 1 (evalModule.in_channels / evalModule.eff_groups 1)
          (evalModule.out_channels / evalModule.eff_groups 1)
          evalModule.kH evalModule.kW evalModule.geom (fun _ _ _ _ => 1)
          evalModule.weight (fun c => (evalModule.bias.getD (fun _ => 0)) c)) :=
  forward_approximate_is_conv_then_bn evalModule 1 1 1 1 (fun _ _ _ _ => 1)
    rfl rfl rfl rfl (fun _ => one_ne_zero) (fun _ => le_refl 0) one_pos

theorem forward_slow_eq_forward_approximate_eval_witness :
    (evalModule.forward_slow 1 1 1 1 (fun _ _ _ _ => 1)).out =
      (evalModule.forward_approximate 1 1 1 1 (fun _ _ _ _ => 1)).out :=
  forward_slow_eq_forward_approximate_eval evalModule 1 1 1 1 (fun _ _ _ _ => 1)
    rfl rfl rfl rfl rfl (fun _ => one_ne_zero) (fun _ => le_refl 0) one_pos

theorem approximate_divisor_ne_zero_slow_divisors_pos_witness :
    (∀ k, k < evalModule.active_out_channels →
        mask_selectO evalModule.out_mask evalModule.out_channels
          (bn_scale_factor evalModule.bn) k ≠ 0) ∧
      (∀ c, 0 < bn_running_std evalModule.bn c) ∧
      (∀ (N H W : ℕ) (t : Tensor4) (c : ℕ),
        0 < Real.sqrt (tensor_var N H W t c + evalModule.bn.eps)) :=
  approximate_divisor_ne_zero_slow_divisors_pos evalModule
    (fun _ => le_refl 0) one_pos (fun _ _ => one_ne_zero)

theorem forward_slow_bn_state_update_witness :
    (evalModule.forward_slow 1 1 1 1 (fun _ _ _ _ => 0)).bn = evalModule.bn :=
  (forward_slow_bn_state_update evalModule 1 1 1 1 (fun _ _ _ _ => 0)).2 rfl

/-- The batch-norm classes that `_BN_CLASS_MAP` may dispatch to. -/
inductive BNClass where
  | batchNorm1d
  | batchNorm2d
  | batchNorm3d
  | dynamicBatchNorm1d
  | dynamicBatchNorm2d
  | dynamicBatchNorm3d
deriving DecidableEq

/-- A Python dict keyed by spatial dimension, such as `_BN_CLASS_MAP`. -/
abbrev BNClassMap := ℕ → Option BNClass

/-- `mp[k] = v`: assignment to a dict key. -/
def dict_set (mp : BNClassMap) (k : ℕ) (v : BNClass) : BNClassMap :=
  fun i => if i = k then some v else mp i

/-- `mp.clear()`. -/
def dict_clear (_mp : BNClassMap) : BNClassMap := fun _ => none

/-- `mp.update(other)`: keys of `other` overwrite, all other keys kept. -/
def dict_update (mp other : BNClassMap) : BNClassMap :=
  fun k =>
    match other k with
    | some v => some v
    | none => mp k

/-- `substitute_bn_class_map`, body part: after `org = deepcopy(_BN_CLASS_MAP)`
the entries 1, 2, 3 are assigned the dynamic batch-norm classes; this is the
map visible inside the `with` block (around the superclass constructor call in
`DynamicQConvBn2d.__init__`). -/
def substitute_bn_class_map_inside (mp : BNClassMap) : BNClassMap :=
  dict_set (dict_set (dict_set mp 1 .dynamicBatchNorm1d) 2 .dynamicBatchNorm2d)
    3 .dynamicBatchNorm3d

/-- `substitute_bn_class_map`, exit part: after the `yield` returns, the map is
cleared and then updated with the saved deep copy `org`. -/
def substitute_bn_class_map_after (mp : BNClassMap) : BNClassMap :=
  dict_update (dict_clear (substitute_bn_class_map_inside mp)) mp

/-- C7: inside the `substitute_bn_class_map` context, `_BN_CLASS_MAP` maps
1, 2 and 3 to the dynamic batch-norm classes while every other entry is
unchanged; upon normal exit the map is restored exactly to its contents from
before entry. -/
theorem substitute_bn_class_map_spec (mp : BNClassMap) :
    substitute_bn_class_map_inside mp 1 = some .dynamicBatchNorm1d ∧
      substitute_bn_class_map_inside mp 2 = some .dynamicBatchNorm2d ∧
      substitute_bn_class_map_inside mp 3 = some .dynamicBatchNorm3d ∧
      (∀ k, k ≠ 1 → k ≠ 2 → k ≠ 3 → substitute_bn_class_map_inside mp k = mp k) ∧
      (∀ k, substitute_bn_class_map_after mp k = mp k) := by
  refine ⟨rfl, rfl, rfl, ?_, ?_⟩
  · intro k h1 h2 h3
    simp [substitute_bn_class_map_inside, dict_set, h1, h2, h3]
  · intro k
    simp only [substitute_bn_class_map_after, dict_update, dict_clear]
    cases mp k <;> rfl

theorem substitute_bn_class_map_spec_witness :
    substitute_bn_class_map_inside (fun _ => none) 0 = none ∧
      substitute_bn_class_map_after (fun k =>
        if k = 2 then some BNClass.batchNorm2d else none) 2 =
        some BNClass.batchNorm2d := by
  constructor
  · exact (substitute_bn_class_map_spec (fun _ => none)).2.2.2.1 0
      (by decide) (by decide) (by decide)
  · exact (substitute_bn_class_map_spec (fun k =>
      if k = 2 then some BNClass.batchNorm2d else none)).2.2.2.2 2

/-- The conv module types that can reach the dynamic fusion helpers. -/
inductive ConvT where
  | bigNasConv2d
  | otherConv
deriving DecidableEq

structure FuseConv where
  ctype : ConvT
  training : Bool
  out_channels : ℕ
deriving DecidableEq

structure FuseBN where
  training : Bool
  num_features : ℕ
  affine : Bool
  track_running_stats : Bool
deriving DecidableEq

structure FuseReLU where
  training : Bool
deriving DecidableEq

/-- Python exceptions the fusion helpers can raise. -/
inductive FuseError where
  | assertionError
  | notImplementedError
deriving DecidableEq

/-- The possible fusion results: the dynamic QAT fused modules, the eval-mode
conv produced by `nn.utils.fuse_conv_bn_eval`, and `DynamicConvReLU2d` wrapped
around the eval-fused conv. -/
inductive FusedModule where
  | dynamicConvBn2d (conv : FuseConv) (bn : FuseBN)
  | convBnEval (conv : FuseConv) (bn : FuseBN)
  | dynamicConvBnReLU2d (conv : FuseConv) (bn : FuseBN) (relu : FuseReLU)
  | dynamicConvReLU2dOfEval (conv : FuseConv) (bn : FuseBN) (relu : FuseReLU)
deriving DecidableEq

/-- `fuse_dynamic_conv_bn(is_qat, conv, bn)` from
`backend_config/common_operator_config_utils.py`. -/
def fuse_dynamic_conv_bn (is_qat : Bool) (conv : FuseConv) (bn : FuseBN) :
    Except FuseError FusedModule :=
  if conv.training ≠ bn.training then .error .assertionError
  else if is_qat then
    if bn.num_features ≠ conv.out_channels then .error .assertionError
    else if ¬ bn.affine then .error .assertionError
    else if ¬ bn.track_running_stats then .error .assertionError
    else
      match conv.ctype with
      | .bigNasConv2d => .ok (.dynamicConvBn2d conv bn)
      | .otherConv => .error .notImplementedError
  else .ok (.convBnEval conv bn)

/-- `fuse_dynamic_conv_bn_relu(is_qat, conv, bn, relu)` from
`backend_config/common_operator_config_utils.py`. -/
def fuse_dynamic_conv_bn_relu (is_qat : Bool) (conv : FuseConv) (bn : FuseBN)
    (relu : FuseReLU) : Except FuseError FusedModule :=
  if ¬ (conv.training = bn.training ∧ bn.training = relu.training) then
    .error .assertionError
  else if is_qat then
    if bn.num_features ≠ conv.out_channels then .error .assertionError
    else if ¬ bn.affine then .error .assertionError
    else if ¬ bn.track_running_stats then .error .assertionError
    else
      match conv.ctype with
      | .bigNasConv2d => .ok (.dynamicConvBnReLU2d conv bn relu)
      | .otherConv => .error .notImplementedError
  else
    match conv.ctype with
    | .bigNasConv2d => .ok (.dynamicConvReLU2dOfEval conv bn relu)
    | .otherConv => .error .notImplementedError

/-- C8: `fuse_dynamic_conv_bn` requires `conv.training == bn.training`; with
`is_qat` true it additionally requires matching feature counts, affine and
tracked running stats, returns `DynamicConvBn2d(conv, bn)` exactly for
`BigNasConv2d` and raises `NotImplementedError` for every other conv type;
with `is_qat` false it returns the eval-fused conv for any conv type.  The
three-module variant behaves analogously, returning `DynamicConvBnReLU2d` in
the QAT case and `DynamicConvReLU2d` over the eval-fused conv otherwise, and
raises `NotImplementedError` for any conv type other than `BigNasConv2d` in
both of its branches. -/
theorem fuse_dynamic_conv_bn_spec (conv : FuseConv) (bn : FuseBN)
    (relu : FuseReLU) :
    (∀ q, conv.training ≠ bn.training →
        fuse_dynamic_conv_bn q conv bn = .error .assertionError) ∧
      (conv.training = bn.training → bn.num_features = conv.out_channels →
        bn.affine = true → bn.track_running_stats = true →
        fuse_dynamic_conv_bn true conv bn =
          (if conv.ctype = .bigNasConv2d then .ok (.dynamicConvBn2d conv bn)
           else .error .notImplementedError)) ∧
      (conv.training = bn.training →
        ¬ (bn.num_features = conv.out_channels ∧ bn.affine = true ∧
            bn.track_running_stats = true) →
        fuse_dynamic_conv_bn true conv bn = .error .assertionError) ∧
      (conv.training = bn.training →
        fuse_dynamic_conv_bn false conv bn = .ok (.convBnEval conv bn)) ∧
      (conv.training = bn.training → bn.training = relu.training →
        bn.num_features = conv.out_channels → bn.affine = true →
        bn.track_running_stats = true →
        fuse_dynamic_conv_bn_relu true conv bn relu =
          (if conv.ctype = .bigNasConv2d then
            .ok (.dynamicConvBnReLU2d conv bn relu)
           else .error .notImplementedError)) ∧
      (conv.training = bn.training → bn.training = relu.training →
        fuse_dynamic_conv_bn_relu false conv bn relu =
          (if conv.ctype = .bigNasConv2d then
            .ok (.dynamicConvReLU2dOfEval conv bn relu)
           else .error .notImplementedError)) ∧
      (∀ q, ¬ (conv.training = bn.training ∧ bn.training = relu.training) →
        fuse_dynamic_conv_bn_relu q conv bn relu = .error .assertionError) := by
  refine ⟨?_, ?_, ?_, ?_, ?_, ?_, ?_⟩
  · intro q h
    simp [fuse_dynamic_conv_bn, h]
  · intro h1 h2 h3 h4
    cases hc : conv.ctype <;>
      simp [fuse_dynamic_conv_bn, h1, h2, h3, h4, hc]
  · intro h1 h2
    by_cases ha : bn.num_features = conv.out_channels
    · by_cases hb : bn.affine = true
      · have hc : ¬ bn.track_running_stats = true := by tauto
        simp [fuse_dynamic_conv_bn, h1, ha, hb, hc]
      · simp [fuse_dynamic_conv_bn, h1, ha, hb]
    · simp [fuse_dynamic_conv_bn, h1, ha]
  · intro h1
    simp [fuse_dynamic_conv_bn, h1]
  · intro h1 h2 h3 h4 h5
    cases hc : conv.ctype <;>
      simp [fuse_dynamic_conv_bn_relu, h1, h2, h3, h4, h5, hc]
  · intro h1 h2
    cases hc : conv.ctype <;>
      simp [fuse_dynamic_conv_bn_relu, h1, h2, hc]
  · intro q h
    simp [fuse_dynamic_conv_bn_relu, h]

theorem fuse_dynamic_conv_bn_spec_witness :
    fuse_dynamic_conv_bn true ⟨ConvT.bigNasConv2d, true, 4⟩ ⟨true, 4, true, true⟩ =
      Except.ok (FusedModule.dynamicConvBn2d ⟨ConvT.bigNasConv2d, true, 4⟩
        ⟨true, 4, true, true⟩) := by
  have h := (fuse_dynamic_conv_bn_spec ⟨ConvT.bigNasConv2d, true, 4⟩
    ⟨true, 4, true, true⟩ ⟨true⟩).2.1 rfl rfl rfl rfl
  simpa using h

/-- `BNCounter.add_count_hook`: computes `batch_flops = prod(input.shape)`
(doubled when affine) but adds `0` to both `module.__flops__` and
`module.__params__`.  All registered BatchNorm/InstanceNorm/LayerNorm/
GroupNorm counters inherit this hook unchanged. -/
def BNCounter_add_count_hook (flops params : ℕ) (input_shape : List ℕ)
    (affine : Bool) : ℕ × ℕ :=
  let batch_flops := input_shape.prod
  let batch_flops := if affine then batch_flops * 2 else batch_flops
  (flops + 0, params + 0)

def BatchNorm1dCounter_add_count_hook : ℕ → ℕ → List ℕ → Bool → ℕ × ℕ :=
  BNCounter_add_count_hook

def BatchNorm2dCounter_add_count_hook : ℕ → ℕ → List ℕ → Bool → ℕ × ℕ :=
  BNCounter_add_count_hook

def BatchNorm3dCounter_add_count_hook : ℕ → ℕ → List ℕ → Bool → ℕ × ℕ :=
  BNCounter_add_count_hook

def InstanceNorm1dCounter_add_count_hook : ℕ → ℕ → List ℕ → Bool → ℕ × ℕ :=
  BNCounter_add_count_hook

def InstanceNorm2dCounter_add_count_hook : ℕ → ℕ → List ℕ → Bool → ℕ × ℕ :=
  BNCounter_add_count_hook

def InstanceNorm3dCounter_add_count_hook : ℕ → ℕ → List ℕ → Bool → ℕ × ℕ :=
  BNCounter_add_count_hook

def LayerNormCounter_add_count_hook : ℕ → ℕ → List ℕ → Bool → ℕ × ℕ :=
  BNCounter_add_count_hook

def GroupNormCounter_add_count_hook : ℕ → ℕ → List ℕ → Bool → ℕ × ℕ :=
  BNCounter_add_count_hook

/-- `DMCPBatchNorm2dCounter.add_count_hook`: on an input of shape
`(B, C, H, W)`, takes `C` from `activated_tensor_channels` when that attribute
is present, adds `B*C*H*W` FLOPs (doubled when affine) and
`2 * activated_channels` parameters. -/
def DMCPBatchNorm2dCounter_add_count_hook (flops params B C H W : ℕ)
    (activated_tensor_channels : Option ℕ) (affine : Bool)
    (activated_channels : ℕ) : ℕ × ℕ :=
  let C := match activated_tensor_channels with
    | some c => c
    | none => C
  let batch_flops := B * C * H * W
  let batch_flops := if affine then batch_flops * 2 else batch_flops
  (flops + batch_flops, params + activated_channels * 2)

/-- C9: the base `BNCounter.add_count_hook` (inherited by every registered
BatchNorm, InstanceNorm, LayerNorm and GroupNorm counter) leaves both the
FLOPs and the parameter counters unchanged — the computed `batch_flops` is
discarded; only `DMCPBatchNorm2dCounter.add_count_hook` adds a nonzero
amount: `B*C*H*W` FLOPs (doubled when affine, with `C` taken from
`activated_tensor_channels` when present) and twice the activated
`num_features` parameters. -/
theorem norm_layer_counter_hooks_spec (flops params : ℕ) (shape : List ℕ)
    (affine : Bool) (B C H W : ℕ) (atc : Option ℕ) (act : ℕ) :
    BNCounter_add_count_hook flops params shape affine = (flops, params) ∧
      BatchNorm1dCounter_add_count_hook flops params shape affine = (flops, params) ∧
      BatchNorm2dCounter_add_count_hook flops params shape affine = (flops, params) ∧
      BatchNorm3dCounter_add_count_hook flops params shape affine = (flops, params) ∧
      InstanceNorm1dCounter_add_count_hook flops params shape affine = (flops, params) ∧
      InstanceNorm2dCounter_add_count_hook flops params shape affine = (flops, params) ∧
      InstanceNorm3dCounter_add_count_hook flops params shape affine = (flops, params) ∧
      LayerNormCounter_add_count_hook flops params shape affine = (flops, params) ∧
      GroupNormCounter_add_count_hook flops params shape affine = (flops, params) ∧
      DMCPBatchNorm2dCounter_add_count_hook flops params B C H W atc affine act =
        (flops + (if affine then B * atc.getD C * H * W * 2
                  else B * atc.getD C * H * W),
          params + act * 2) := by
  refine ⟨?_, ?_, ?_, ?_, ?_, ?_, ?_, ?_, ?_, ?_⟩ <;>
    cases atc <;>
      simp [BNCounter_add_count_hook, BatchNorm1dCounter_add_count_hook,
        BatchNorm2dCounter_add_count_hook, BatchNorm3dCounter_add_count_hook,
        InstanceNorm1dCounter_add_count_hook, InstanceNorm2dCounter_add_count_hook,
        InstanceNorm3dCounter_add_count_hook, LayerNormCounter_add_count_hook,
        GroupNormCounter_add_count_hook, DMCPBatchNorm2dCounter_add_count_hook]

/-- One pass of the inference loop of `SubnetExportValLoop._evaluate_once`:
`for idx, data_batch in enumerate(dataloader): if idx >= num_infer: break;
run_iter(idx, data_batch)` — returns the number of `run_iter` calls. -/
def run_iter_count (num_infer idx : ℕ) (batches : List ℕ) : ℕ :=
  match batches with
  | [] => 0
  | _ :: rest =>
      if num_infer ≤ idx then 0 else 1 + run_iter_count num_infer (idx + 1) rest

/-- Model of a `SubnetExportValLoop` as far as `_evaluate_once` observes it:
the calibration budget, the validation dataloader, the metrics the evaluator
would return if invoked, and the resource estimator's results. -/
structure SubnetExportValLoop where
  calibrate_sample_num : ℤ
  dataloader : List ℕ
  evaluator_metrics : List (String × ℤ)
  resource_metrics : List (String × ℤ)

/-- Observable outcome of one `_evaluate_once` call. -/
structure EvalOnceResult where
  calibrated : Bool
  run_iter_calls : ℕ
  evaluator_called : Bool
  metrics : List (String × ℤ)
deriving DecidableEq

/-- `SubnetExportValLoop._evaluate_once`: recalibrates BN statistics when
`calibrate_sample_num > 0`, runs the inference loop with the constant bound
`num_infer = 0`, takes `{}` instead of `evaluator.evaluate(num_infer)` when
`num_infer == 0`, and merges in the resource estimator's results. -/
def evaluate_once (m : SubnetExportValLoop) : EvalOnceResult :=
  let num_infer := 0
  { calibrated := decide (0 < m.calibrate_sample_num)
    run_iter_calls := run_iter_count num_infer 0 m.dataloader
    evaluator_called := decide (num_infer ≠ 0)
    metrics := (if num_infer = 0 then [] else m.evaluator_metrics) ++
      m.resource_metrics }

/-- C10: in `_evaluate_once` the inference bound `num_infer` is the constant
0, so the dataloader loop breaks on its first iteration without calling
`run_iter`, the evaluator is never invoked, the accuracy part of the metrics
is empty and the returned metrics are exactly the resource estimator's
results; BN statistics are recalibrated iff `calibrate_sample_num > 0`. -/
theorem evaluate_once_spec (m : SubnetExportValLoop) :
    (evaluate_once m).run_iter_calls = 0 ∧
      (evaluate_once m).evaluator_called = false ∧
      (evaluate_once m).metrics = m.resource_metrics ∧
      ((evaluate_once m).calibrated = true ↔ 0 < m.calibrate_sample_num) := by
  have h : ∀ l : List ℕ, run_iter_count 0 0 l = 0 := by
    intro l
    cases l <;> simp [run_iter_count]
  refine ⟨?_, rfl, rfl, by simp [evaluate_once]⟩
  simpa [evaluate_once] using h m.dataloader

/-- The spatial slice (kernel) carried by one `(out, in)` entry of a conv
weight. -/
abbrev Kernel := ℕ → ℕ → ℝ

/-- Boolean-mask indexing `xs[mask]` on a concrete (list) axis. -/
def maskFilter {α : Type} (mask : List Bool) (xs : List α) : List α :=
  (xs.zip mask).filterMap (fun p => if p.2 then some p.1 else none)

/-- Parameters of a dynamic batch norm with concrete (list) tensors, as
observed by `to_static_op`. -/
structure BNL where
  running_mean : List ℝ
  running_var : List ℝ
  weight : List ℝ
  bias : List ℝ
  mask : Option (List Bool)
  eps : ℝ
  momentum : ℝ
  affine : Bool
  track_running_stats : Bool

/-- Modelled from the spec: `DynamicBatchNorm2d.get_dynamic_params` (defined
in `mmrazor/models/architectures/dynamic_ops`, outside the provided sources)
returns the running statistics and affine parameters sliced by the current
`num_features` mask. -/
def BNL.get_dynamic_params (bn : BNL) : List ℝ × List ℝ × List ℝ × List ℝ :=
  match bn.mask with
  | none => (bn.running_mean, bn.running_var, bn.weight, bn.bias)
  | some msk => (maskFilter msk bn.running_mean, maskFilter msk bn.running_var,
      maskFilter msk bn.weight, maskFilter msk bn.bias)

/-- The static weight fake-quantizer produced by
`weight_fake_quant.to_static_op()`: its per-channel scale and zero point. -/
structure FakeQuantL where
  scale : List ℝ
  zero_point : List ℤ

/-- A `DynamicQConvBn2d` with concrete (list) tensors, as observed by
`to_static_op`. -/
structure DQConvBn2dL where
  in_channels : ℕ
  out_channels : ℕ
  kernel_size : ℕ × ℕ
  stride : ℕ × ℕ
  padding : ℕ × ℕ
  dilation : ℕ × ℕ
  groups : ℕ
  weight : List (List Kernel)
  bias : Option (List ℝ)
  bn : BNL
  fq : FakeQuantL
  out_mask : Option (List Bool)
  in_mask : Option (List Bool)

/-- Modelled from the spec: mutable-channel slicing of the conv weight — rows
(dim 0) by the out-channel mask, columns (dim 1) by the in-channel mask. -/
def DQConvBn2dL.sliced_weight (m : DQConvBn2dL) : List (List Kernel) :=
  let rows := match m.out_mask with
    | none => m.weight
    | some msk => maskFilter msk m.weight
  rows.map (fun row =>
    match m.in_mask with
    | none => row
    | some msk => maskFilter msk row)

/-- Modelled from the spec: the conv bias is sliced by the out-channel mask. -/
def DQConvBn2dL.sliced_bias (m : DQConvBn2dL) : Option (List ℝ) :=
  m.bias.map (fun b =>
    match m.out_mask with
    | none => b
    | some msk => maskFilter msk b)

/-- The static fused QAT module built by `DynamicQConvBn2d.to_static_op`, as
far as its tensors and shape attributes are concerned. -/
structure StaticConvBn where
  conv_in_channels : ℕ
  conv_out_channels : ℕ
  conv_kernel_size : ℕ × ℕ
  conv_groups : ℕ
  conv_weight : List (List Kernel)
  conv_bias : Option (List ℝ)
  bn_num_features : ℕ
  bn_running_mean : List ℝ
  bn_running_var : List ℝ
  bn_weight : List ℝ
  bn_bias : List ℝ
  fq_scale : List ℝ
  fq_zero_point : List ℤ

/-- `DynamicQConvBn2d.to_static_op`: slices weight and bias via
`get_dynamic_params`, recomputes `groups` for the full-depthwise case from the
in-channel mask, builds the static conv from the sliced weight's shape, copies
the dynamic BN's sliced parameters into a fresh BN of `out_channels` features,
and slices the static fake-quantizer's scale and zero point by the out-channel
mask when the scale is per-channel with a stale length. -/
def DQConvBn2dL.to_static_op (m : DQConvBn2dL) : StaticConvBn :=
  let weight := m.sliced_weight
  let bias := m.sliced_bias
  let groups := if m.groups = m.in_channels ∧ m.in_channels = m.out_channels ∧
      m.in_mask ≠ none then
    (match m.in_mask with
     | some msk => msk.count true
     | none => m.groups)
  else m.groups
  let out_channels := weight.length
  let in_channels := (weight.headD []).length * groups
  let dyn := m.bn.get_dynamic_params
  let fq2 := if 1 < m.fq.scale.length ∧ m.fq.scale.length ≠ out_channels then
    (match m.out_mask with
     | some msk => FakeQuantL.mk (maskFilter msk m.fq.scale)
        (maskFilter msk m.fq.zero_point)
     | none => m.fq)
  else m.fq
  { conv_in_channels := in_channels
    conv_out_channels := out_channels
    conv_kernel_size := m.kernel_size
    conv_groups := groups
    conv_weight := weight
    conv_bias := bias
    bn_num_features := out_channels
    bn_running_mean := dyn.1
    bn_running_var := dyn.2.1
    bn_weight := dyn.2.2.1
    bn_bias := dyn.2.2.2
    fq_scale := fq2.scale
    fq_zero_point := fq2.zero_point }

/-- C5: `to_static_op()` returns a static fused QAT module whose conv weight
is the mutable-channel-sliced weight, whose `out_channels` is the sliced
weight's dimension 0, whose `in_channels` is the sliced weight's dimension 1
times the (recomputed) groups, whose bias is the sliced bias when a bias
exists, whose batch-norm tensors are copied from the dynamic BN's sliced
dynamic parameters, and whose weight fake-quantizer, when its scale has more
than one element and its length differs from `out_channels`, has scale and
zero point sliced by the output-channel mask. -/
theorem to_static_op_spec (m : DQConvBn2dL) :
    m.to_static_op.conv_weight = m.sliced_weight ∧
      m.to_static_op.conv_out_channels = m.sliced_weight.length ∧
      m.to_static_op.conv_in_channels =
        (m.sliced_weight.headD []).length * m.to_static_op.conv_groups ∧
      (∀ b, m.bias = some b →
        m.to_static_op.conv_bias = some (match m.out_mask with
          | none => b
          | some msk => maskFilter msk b)) ∧
      m.to_static_op.bn_running_mean = m.bn.get_dynamic_params.1 ∧
      m.to_static_op.bn_running_var = m.bn.get_dynamic_params.2.1 ∧
      m.to_static_op.bn_weight = m.bn.get_dynamic_params.2.2.1 ∧
      m.to_static_op.bn_bias = m.bn.get_dynamic_params.2.2.2 ∧
      m.to_static_op.bn_num_features = m.to_static_op.conv_out_channels ∧
      (∀ msk, m.out_mask = some msk →
        1 < m.fq.scale.length →
        m.fq.scale.length ≠ m.to_static_op.conv_out_channels →
        m.to_static_op.fq_scale = maskFilter msk m.fq.scale ∧
          m.to_static_op.fq_zero_point = maskFilter msk m.fq.zero_point) ∧
      (¬ (1 < m.fq.scale.length ∧
          m.fq.scale.length ≠ m.to_static_op.conv_out_channels) →
        m.to_static_op.fq_scale = m.fq.scale ∧
          m.to_static_op.fq_zero_point = m.fq.zero_point) := by
  refine ⟨rfl, rfl, rfl, ?_, rfl, rfl, rfl, rfl, rfl, ?_, ?_⟩
  · intro b hb
    simp [DQConvBn2dL.to_static_op, DQConvBn2dL.sliced_bias, hb]
  · intro msk hmsk h1 h2
    constructor <;>
      simp_all [DQConvBn2dL.to_static_op]
  · intro h
    have hcond : ¬ (1 < m.fq.scale.length ∧
        ¬ m.fq.scale.length = m.sliced_weight.length) := h
    constructor
    · simp only [DQConvBn2dL.to_static_op]
      rw [if_neg hcond]
    · simp only [DQConvBn2dL.to_static_op]
      rw [if_neg hcond]

theorem to_static_op_spec_witness :
    (DQConvBn2dL.to_static_op
        { in_channels := 2, out_channels := 2, kernel_size := (1, 1),
          stride := (1, 1), padding := (0, 0), dilation := (1, 1), groups := 1,
          weight := [[fun _ _ => 1, fun _ _ => 2], [fun _ _ => 3, fun _ _ => 4]],
          bias := some [5, 6],
          bn := { running_mean := [0, 0], running_var := [1, 1],
                  weight := [1, 1], bias := [0, 0], mask := some [true, false],
                  eps := 1, momentum := 1, affine := true,
                  track_running_stats := true },
          fq := { scale := [7, 8], zero_point := [0, 1] },
          out_mask := some [true, false],
          in_mask := none }).conv_bias = some [5] := by
  have h := (to_static_op_spec
    { in_channels := 2, out_channels := 2, kernel_size := (1, 1),
      stride := (1, 1), padding := (0, 0), dilation := (1, 1), groups := 1,
      weight := [[fun _ _ => 1, fun _ _ => 2], [fun _ _ => 3, fun _ _ => 4]],
      bias := some [5, 6],
      bn := { running_mean := [0, 0], running_var := [1, 1],
              weight := [1, 1], bias := [0, 0], mask := some [true, false],
              eps := 1, momentum := 1, affine := true,
              track_running_stats := true },
      fq := { scale := [7, 8], zero_point := [0, 1] },
      out_mask := some [true, false],
      in_mask := none }).2.2.2.1 [5, 6] rfl
  simpa [maskFilter] using h
